import Mathlib

/-!
Verification development for the geoproof change-detection core.

The definitions below are shallow embeddings of the TypeScript source:
* the pixel diff engine of `DiffViewer` (masking heuristics, per-pixel
  difference, aggregate statistics),
* the candidate selectors `pickClosest` / `pickClearest` of the STAC
  search route,
* the Wayback snapshot deduplication and timeline construction,
* the Web-Mercator projection and the tile-budget / zoom-downgrade
  loops of `loadBboxImageFromTiles`.

JavaScript numbers are modelled as `ℚ` (for the exact byte arithmetic of
the diff engine and the clamping/rounding of request parameters) or `ℝ`
(for the transcendental Mercator projection).  Fallible computations
return `Except String`, mirroring thrown `Error` messages.
-/

namespace GeoProof

/-! ## Pixel diff engine (`DiffViewer` diff loop)

A pixel is an RGB triple of bytes; the alpha channel of the source RGBA
buffers is never read by the diff loop, and the loop walks the two
buffers over the flat index range `0 ≤ i < w*h`, so a buffer is modelled
as the list of its RGB triples in scan order. -/

structure Px where
  r : ℕ
  g : ℕ
  b : ℕ
deriving DecidableEq, Repr

/-- `luma(r, g, b) = 0.2126*r + 0.7152*g + 0.0722*b`. -/
def luma (p : Px) : ℚ :=
  (2126 * p.r + 7152 * p.g + 722 * p.b) / 10000

/-- `saturation(r, g, b) = (max - min) / max`, and `0` when `max ≤ 0`. -/
def saturation (p : Px) : ℚ :=
  let mx : ℕ := max p.r (max p.g p.b)
  let mn : ℕ := min p.r (min p.g p.b)
  if mx ≤ 0 then 0 else ((mx : ℚ) - (mn : ℚ)) / (mx : ℚ)

/-- Bright and low-saturation: `luma ≥ 210 && saturation ≤ 0.18`. -/
def isCloudLike (p : Px) : Bool :=
  decide (210 ≤ luma p) && decide (saturation p ≤ 18 / 100)

/-- `luma ≤ 18`. -/
def isVeryDark (p : Px) : Bool :=
  decide (luma p ≤ 18)

/-- The mask test of the diff loop: a pixel pair is skipped when
`ignoreClouds` and either side is cloud-like, or `ignoreDark` and either
side is very dark. -/
def maskedPx (ignoreClouds ignoreDark : Bool) (p q : Px) : Bool :=
  (ignoreClouds && (isCloudLike p || isCloudLike q)) ||
    (ignoreDark && (isVeryDark p || isVeryDark q))

/-- Per-pixel difference `d = (|Δr| + |Δg| + |Δb|) / 3`. -/
def diffVal (p q : Px) : ℚ :=
  (|(p.r : ℚ) - (q.r : ℚ)| + |(p.g : ℚ) - (q.g : ℚ)| + |(p.b : ℚ) - (q.b : ℚ)|) / 3

/-- Accumulators of the diff loop: `(sum, changed, considered)`.  The
source accumulates left to right with mutable variables; since `+` on
the accumulators is commutative and each step is independent of the
accumulator value, the right fold below returns the same triple. -/
def diffLoop (t : ℚ) (ic idk : Bool) : List (Px × Px) → ℚ × ℕ × ℕ
  | [] => (0, 0, 0)
  | (p, q) :: rest =>
    let acc := diffLoop t ic idk rest
    if maskedPx ic idk p q then acc
    else
      let d := diffVal p q
      (acc.1 + d, (if t ≤ d then acc.2.1 + 1 else acc.2.1), acc.2.2 + 1)

/-- Aggregate statistics of a diff computation (the source record also
carries the working width and height, which the flattened buffer model
does not track). -/
structure DiffStats where
  meanDiff : ℚ
  changedPercent : ℚ
deriving DecidableEq, Repr

deriving instance DecidableEq for Except

def allMaskedMsg : String :=
  "All pixels were masked (cloud/dark). Try disabling masking or changing dates."

/-- The diff computation of `DiffViewer`: walk the common pixel range of
the two buffers, skip masked pairs, accumulate `sum`, `changed`,
`considered`, fail if every pixel was masked, otherwise return
`meanDiff = sum / considered` and
`changedPercent = (changed / considered) * 100`. -/
def computeDiff (a b : List Px) (threshold : ℚ) (ignoreClouds ignoreDark : Bool) :
    Except String DiffStats :=
  let acc := diffLoop threshold ignoreClouds ignoreDark (a.zip b)
  if acc.2.2 = 0 then .error allMaskedMsg
  else .ok { meanDiff := acc.1 / (acc.2.2 : ℚ),
             changedPercent := ((acc.2.1 : ℚ) / (acc.2.2 : ℚ)) * 100 }

/-- Number of unmasked pixel pairs: the pairs that contribute to the
statistics. -/
def consideredCount (a b : List Px) (ic idk : Bool) : ℕ :=
  ((a.zip b).filter fun pq => ! maskedPx ic idk pq.1 pq.2).length

lemma diffLoop_considered (t : ℚ) (ic idk : Bool) (l : List (Px × Px)) :
    (diffLoop t ic idk l).2.2 = (l.filter fun pq => ! maskedPx ic idk pq.1 pq.2).length := by
  induction l with
  | nil => rfl
  | cons pq rest ih =>
    obtain ⟨p, q⟩ := pq
    by_cases h : maskedPx ic idk p q
    · simp [diffLoop, h, ih]
    · simp [diffLoop, h, ih, List.filter_cons]

lemma diffVal_self (p : Px) : diffVal p p = 0 := by
  simp [diffVal]

lemma diffLoop_self (t : ℚ) (ic idk : Bool) (ht : 0 < t) (l : List Px) :
    (diffLoop t ic idk (l.zip l)).1 = 0 ∧ (diffLoop t ic idk (l.zip l)).2.1 = 0 := by
  induction l with
  | nil => exact ⟨rfl, rfl⟩
  | cons p rest ih =>
    have hzip : (p :: rest).zip (p :: rest) = (p, p) :: rest.zip rest := rfl
    rw [hzip]
    by_cases h : maskedPx ic idk p p
    · simpa [diffLoop, h] using ih
    · have hd : diffVal p p = 0 := diffVal_self p
      have hnot : ¬ t ≤ diffVal p p := by rw [hd]; exact not_le.mpr ht
      simp [diffLoop, h, hd, hnot, ih.1, ih.2, ht]

lemma isCloudLike_white : isCloudLike ⟨255, 255, 255⟩ = true := by
  simp [isCloudLike, luma, saturation]
  norm_num

lemma notMasked_gray100 : maskedPx true true ⟨100, 100, 100⟩ ⟨100, 100, 100⟩ = false := by
  simp [maskedPx, isCloudLike, isVeryDark, luma, saturation]
  norm_num

/-- C1 (counterexample): on a pair of identical all-white buffers with
`ignoreClouds = true` and threshold `10 > 0`, `computeDiff` does not
return stats at all — every pixel is masked and it fails with the
all-pixels-masked error.  This refutes the claim that `computeDiff`
returns zero stats on every pair of identical buffers with positive
threshold. -/
theorem computeDiff_identical_cex :
    computeDiff [⟨255, 255, 255⟩] [⟨255, 255, 255⟩] 10 true false = .error allMaskedMsg := by
  simp [computeDiff, diffLoop, maskedPx, isCloudLike_white]

/-- C1 (amended): for identical buffers and any threshold `> 0`,
whenever `computeDiff` does return stats (at least one pixel pair is
unmasked), the stats are `meanDiff = 0` and `changedPercent = 0`. -/
theorem computeDiff_identical_zero (buf : List Px) (t : ℚ) (ic idk : Bool) (s : DiffStats)
    (ht : 0 < t) (h : computeDiff buf buf t ic idk = .ok s) :
    s.meanDiff = 0 ∧ s.changedPercent = 0 := by
  obtain ⟨hsum, hchanged⟩ := diffLoop_self t ic idk ht buf
  unfold computeDiff at h
  by_cases hc : (diffLoop t ic idk (buf.zip buf)).2.2 = 0
  · simp [hc] at h
  · simp only [hc, if_false, Except.ok.injEq] at h
    subst h
    simp [hsum, hchanged]

/-- C1 witness: a concrete identical pair on which `computeDiff`
succeeds with zero stats. -/
theorem computeDiff_identical_zero_witness :
    (0 : ℚ) < 20 ∧ (DiffStats.mk 0 0).meanDiff = 0 ∧ (DiffStats.mk 0 0).changedPercent = 0 :=
  ⟨by norm_num,
    computeDiff_identical_zero [⟨100, 100, 100⟩] 20 true true ⟨0, 0⟩ (by norm_num)
      (by simp [computeDiff, diffLoop, notMasked_gray100, diffVal])⟩

lemma diffLoop_sum_eq (t1 t2 : ℚ) (ic idk : Bool) (l : List (Px × Px)) :
    (diffLoop t1 ic idk l).1 = (diffLoop t2 ic idk l).1 := by
  induction l with
  | nil => rfl
  | cons pq rest ih =>
    obtain ⟨p, q⟩ := pq
    by_cases h : maskedPx ic idk p q <;> simp [diffLoop, h, ih]

lemma diffLoop_changed_antitone (t1 t2 : ℚ) (hle : t1 ≤ t2) (ic idk : Bool)
    (l : List (Px × Px)) :
    (diffLoop t2 ic idk l).2.1 ≤ (diffLoop t1 ic idk l).2.1 := by
  induction l with
  | nil => exact le_refl _
  | cons pq rest ih =>
    obtain ⟨p, q⟩ := pq
    by_cases h : maskedPx ic idk p q
    · simpa [diffLoop, h] using ih
    · by_cases h2 : t2 ≤ diffVal p q
      · have h1 : t1 ≤ diffVal p q := hle.trans h2
        simpa [diffLoop, h, h1, h2] using ih
      · by_cases h1 : t1 ≤ diffVal p q <;>
          simp [diffLoop, h, h1, h2] <;> omega

/-- C2: for fixed buffers and masking options, `changedPercent` is
non-increasing in the threshold: the per-pixel mask and difference are
threshold-independent, and the hot test `d ≥ threshold` can only become
false as the threshold grows. -/
theorem computeDiff_threshold_antitone (a b : List Px) (ic idk : Bool) (t1 t2 : ℚ)
    (s1 s2 : DiffStats) (hle : t1 ≤ t2)
    (h1 : computeDiff a b t1 ic idk = .ok s1) (h2 : computeDiff a b t2 ic idk = .ok s2) :
    s2.changedPercent ≤ s1.changedPercent := by
  have hcons : (diffLoop t2 ic idk (a.zip b)).2.2 = (diffLoop t1 ic idk (a.zip b)).2.2 := by
    rw [diffLoop_considered, diffLoop_considered]
  have hch := diffLoop_changed_antitone t1 t2 hle ic idk (a.zip b)
  unfold computeDiff at h1 h2
  by_cases hc : (diffLoop t1 ic idk (a.zip b)).2.2 = 0
  · rw [if_pos hc] at h1
    exact absurd h1 (by simp)
  · have hc2 : ¬ (diffLoop t2 ic idk (a.zip b)).2.2 = 0 := by rw [hcons]; exact hc
    rw [if_neg hc] at h1
    rw [if_neg hc2] at h2
    simp only [Except.ok.injEq] at h1 h2
    subst h1
    subst h2
    simp only [hcons]
    have hkpos : 0 < ((diffLoop t1 ic idk (a.zip b)).2.2 : ℚ) := by
      exact_mod_cast Nat.pos_of_ne_zero hc
    have hcc : ((diffLoop t2 ic idk (a.zip b)).2.1 : ℚ) ≤
        ((diffLoop t1 ic idk (a.zip b)).2.1 : ℚ) := by exact_mod_cast hch
    gcongr

/-- C2 witness: one gray pair, thresholds 10 ≤ 70; the changed share
drops from 100 to 0. -/
theorem computeDiff_threshold_antitone_witness :
    (10 : ℚ) ≤ 70 ∧ (DiffStats.mk 60 0).changedPercent ≤ (DiffStats.mk 60 100).changedPercent :=
  ⟨by norm_num,
    computeDiff_threshold_antitone [⟨0, 0, 0⟩] [⟨60, 60, 60⟩] false false 10 70
      ⟨60, 100⟩ ⟨60, 0⟩ (by norm_num)
      (by simp [computeDiff, diffLoop, maskedPx, diffVal]; norm_num)
      (by simp [computeDiff, diffLoop, maskedPx, diffVal]; norm_num)⟩

/-- A four-pixel all-white buffer. -/
def whiteBuf4 : List Px :=
  [⟨255, 255, 255⟩, ⟨255, 255, 255⟩, ⟨255, 255, 255⟩, ⟨255, 255, 255⟩]

/-- C3: `computeDiff` fails with the all-pixels-masked error exactly
when the number of considered (unmasked) pixel pairs is `0`; in
particular, on two all-white buffers with `ignoreClouds = true` every
pixel is cloud-like and the computation fails for every threshold. -/
theorem computeDiff_error_iff_allMasked :
    (∀ (a b : List Px) (t : ℚ) (ic idk : Bool),
      computeDiff a b t ic idk = .error allMaskedMsg ↔ consideredCount a b ic idk = 0)
    ∧ ∀ t : ℚ, computeDiff whiteBuf4 whiteBuf4 t true false = .error allMaskedMsg := by
  have h1 : ∀ (a b : List Px) (t : ℚ) (ic idk : Bool),
      computeDiff a b t ic idk = .error allMaskedMsg ↔ consideredCount a b ic idk = 0 := by
    intro a b t ic idk
    unfold computeDiff consideredCount
    rw [← diffLoop_considered t ic idk]
    by_cases hc : (diffLoop t ic idk (a.zip b)).2.2 = 0
    · simp [hc]
    · simp [hc]
  refine ⟨h1, fun t => (h1 _ _ _ _ _).mpr ?_⟩
  simp [consideredCount, whiteBuf4, maskedPx, isCloudLike_white]

/-! ## Candidate selector (`pickClosest` / `pickClearest`, STAC search route)

A catalog feature carries an optional capture time (`datetime`, modelled
as UTC milliseconds) and an optional cloud-cover percentage
(`eo:cloud_cover`).  `Math.abs(ms - targetMs)` is modelled as
`(ms - t).natAbs`. -/

structure Feat where
  id : ℕ
  datetime : Option ℤ
  cloud : Option ℚ
deriving DecidableEq, Repr

/-- The scan of `pickClosest`: keep the current best item and its
distance, replace it only on a strictly smaller distance. -/
def pickClosestGo (t : ℤ) : List Feat → Option (Feat × ℕ) → Option Feat
  | [], best => best.map Prod.fst
  | f :: rest, best =>
    match f.datetime with
    | none => pickClosestGo t rest best
    | some ms =>
      let dist := (ms - t).natAbs
      match best with
      | none => pickClosestGo t rest (some (f, dist))
      | some (b, bd) =>
        if dist < bd then pickClosestGo t rest (some (f, dist))
        else pickClosestGo t rest (some (b, bd))

/-- `pickClosest(features, targetMs)`: left-to-right scan starting from
no best item (`bestDist = Infinity`). -/
def pickClosest (features : List Feat) (t : ℤ) : Option Feat :=
  pickClosestGo t features none

/-- The property C6 states of the result: `f` occurs in the list, is
dated, every dated item strictly before it is strictly farther from the
target, and no dated item anywhere is strictly closer. -/
def FirstClosest (fs : List Feat) (t : ℤ) (f : Feat) : Prop :=
  ∃ m pre post, fs = pre ++ f :: post ∧ f.datetime = some m ∧
    (∀ g ∈ pre, ∀ mg : ℤ, g.datetime = some mg → (m - t).natAbs < (mg - t).natAbs) ∧
    ∀ g ∈ fs, ∀ mg : ℤ, g.datetime = some mg → (m - t).natAbs ≤ (mg - t).natAbs

lemma pickClosestGo_some_spec (t : ℤ) :
    ∀ (l : List Feat) (b : Feat) (bd : ℕ) (f : Feat),
      pickClosestGo t l (some (b, bd)) = some f →
      (f = b ∧ ∀ g ∈ l, ∀ mg : ℤ, g.datetime = some mg → bd ≤ (mg - t).natAbs)
      ∨ (∃ m pre post, l = pre ++ f :: post ∧ f.datetime = some m ∧
          (m - t).natAbs < bd ∧
          (∀ g ∈ pre, ∀ mg : ℤ, g.datetime = some mg → (m - t).natAbs < (mg - t).natAbs) ∧
          ∀ g ∈ l, ∀ mg : ℤ, g.datetime = some mg → (m - t).natAbs ≤ (mg - t).natAbs) := by
  intro l
  induction l with
  | nil =>
    intro b bd f h
    simp only [pickClosestGo, Option.map_some', Option.some.injEq] at h
    exact Or.inl ⟨h.symm, by simp⟩
  | cons f0 rest ih =>
    intro b bd f h
    cases hdt : f0.datetime with
    | none =>
      rw [pickClosestGo, hdt] at h
      rcases ih b bd f h with ⟨hfb, hall⟩ | ⟨m, pre, post, hsplit, hdtf, hlt, hpre, hall⟩
      · refine Or.inl ⟨hfb, ?_⟩
        intro g hg mg hmg
        rcases List.mem_cons.mp hg with rfl | hg'
        · rw [hdt] at hmg; exact absurd hmg (by simp)
        · exact hall g hg' mg hmg
      · refine Or.inr ⟨m, f0 :: pre, post, by rw [hsplit]; rfl, hdtf, hlt, ?_, ?_⟩
        · intro g hg mg hmg
          rcases List.mem_cons.mp hg with rfl | hg'
          · rw [hdt] at hmg; exact absurd hmg (by simp)
          · exact hpre g hg' mg hmg
        · intro g hg mg hmg
          rcases List.mem_cons.mp hg with rfl | hg'
          · rw [hdt] at hmg; exact absurd hmg (by simp)
          · exact hall g hg' mg hmg
    | some ms =>
      rw [pickClosestGo, hdt] at h
      simp only at h
      by_cases hcmp : (ms - t).natAbs < bd
      · rw [if_pos hcmp] at h
        rcases ih f0 ((ms - t).natAbs) f h with ⟨hfb, hall⟩ |
            ⟨m, pre, post, hsplit, hdtf, hlt, hpre, hall⟩
        · subst hfb
          refine Or.inr ⟨ms, [], rest, rfl, hdt, hcmp, by simp, ?_⟩
          intro g hg mg hmg
          rcases List.mem_cons.mp hg with rfl | hg'
          · rw [hdt] at hmg
            obtain rfl : ms = mg := by simpa using hmg
            exact le_refl _
          · exact hall g hg' mg hmg
        · refine Or.inr ⟨m, f0 :: pre, post, by rw [hsplit]; rfl, hdtf, lt_trans hlt hcmp,
            ?_, ?_⟩
          · intro g hg mg hmg
            rcases List.mem_cons.mp hg with rfl | hg'
            · rw [hdt] at hmg
              obtain rfl : ms = mg := by simpa using hmg
              exact hlt
            · exact hpre g hg' mg hmg
          · intro g hg mg hmg
            rcases List.mem_cons.mp hg with rfl | hg'
            · rw [hdt] at hmg
              obtain rfl : ms = mg := by simpa using hmg
              exact le_of_lt hlt
            · exact hall g hg' mg hmg
      · rw [if_neg hcmp] at h
        push_neg at hcmp
        rcases ih b bd f h with ⟨hfb, hall⟩ | ⟨m, pre, post, hsplit, hdtf, hlt, hpre, hall⟩
        · refine Or.inl ⟨hfb, ?_⟩
          intro g hg mg hmg
          rcases List.mem_cons.mp hg with rfl | hg'
          · rw [hdt] at hmg
            obtain rfl : ms = mg := by simpa using hmg
            exact hcmp
          · exact hall g hg' mg hmg
        · refine Or.inr ⟨m, f0 :: pre, post, by rw [hsplit]; rfl, hdtf, hlt, ?_, ?_⟩
          · intro g hg mg hmg
            rcases List.mem_cons.mp hg with rfl | hg'
            · rw [hdt] at hmg
              obtain rfl : ms = mg := by simpa using hmg
              exact lt_of_lt_of_le hlt hcmp
            · exact hpre g hg' mg hmg
          · intro g hg mg hmg
            rcases List.mem_cons.mp hg with rfl | hg'
            · rw [hdt] at hmg
              obtain rfl : ms = mg := by simpa using hmg
              exact le_of_lt (lt_of_lt_of_le hlt hcmp)
            · exact hall g hg' mg hmg

lemma pickClosestGo_none_spec (t : ℤ) :
    ∀ (l : List Feat) (f : Feat), pickClosestGo t l none = some f → FirstClosest l t f := by
  intro l
  induction l with
  | nil => intro f h; exact absurd h (by simp [pickClosestGo])
  | cons f0 rest ih =>
    intro f h
    cases hdt : f0.datetime with
    | none =>
      rw [pickClosestGo, hdt] at h
      obtain ⟨m, pre, post, hsplit, hdtf, hpre, hall⟩ := ih f h
      refine ⟨m, f0 :: pre, post, by rw [hsplit]; rfl, hdtf, ?_, ?_⟩
      · intro g hg mg hmg
        rcases List.mem_cons.mp hg with rfl | hg'
        · rw [hdt] at hmg; exact absurd hmg (by simp)
        · exact hpre g hg' mg hmg
      · intro g hg mg hmg
        rcases List.mem_cons.mp hg with rfl | hg'
        · rw [hdt] at hmg; exact absurd hmg (by simp)
        · exact hall g hg' mg hmg
    | some ms =>
      rw [pickClosestGo, hdt] at h
      simp only at h
      rcases pickClosestGo_some_spec t rest f0 ((ms - t).natAbs) f h with
        ⟨hfb, hall⟩ | ⟨m, pre, post, hsplit, hdtf, hlt, hpre, hall⟩
      · subst hfb
        refine ⟨ms, [], rest, rfl, hdt, by simp, ?_⟩
        intro g hg mg hmg
        rcases List.mem_cons.mp hg with rfl | hg'
        · rw [hdt] at hmg
          obtain rfl : ms = mg := by simpa using hmg
          exact le_refl _
        · exact hall g hg' mg hmg
      · refine ⟨m, f0 :: pre, post, by rw [hsplit]; rfl, hdtf, ?_, ?_⟩
        · intro g hg mg hmg
          rcases List.mem_cons.mp hg with rfl | hg'
          · rw [hdt] at hmg
            obtain rfl : ms = mg := by simpa using hmg
            exact hlt
          · exact hpre g hg' mg hmg
        · intro g hg mg hmg
          rcases List.mem_cons.mp hg with rfl | hg'
          · rw [hdt] at hmg
            obtain rfl : ms = mg := by simpa using hmg
            exact le_of_lt hlt
          · exact hall g hg' mg hmg

/-- 2024-01-01T00:00:00Z in UTC milliseconds. -/
def exJan1 : ℤ := 1704067200000

/-- 2024-01-03T00:00:00Z in UTC milliseconds (the target). -/
def exJan3 : ℤ := 1704240000000

/-- 2024-01-05T00:00:00Z in UTC milliseconds. -/
def exJan5 : ℤ := 1704412800000

/-- 2024-01-10T00:00:00Z in UTC milliseconds. -/
def exJan10 : ℤ := 1704844800000

def exItem1 : Feat := ⟨1, some exJan1, some 80⟩

def exItem2 : Feat := ⟨2, some exJan5, some 5⟩

def exItem3 : Feat := ⟨3, some exJan10, some 50⟩

/-- The example catalog of the spec, in input order. -/
def exFeatures : List Feat := [exItem1, exItem2, exItem3]

/-- C6: any item `pickClosest` returns minimises the absolute time
distance to the target, every dated item strictly before it in scan
order is strictly farther (ties are won by the first item seen, because
the scan replaces the best only on a strict `<`); and on the example
list with target 2024-01-03 the result is the 2024-01-01 item, which
ties with the 2024-01-05 item at two days. -/
theorem pickClosest_spec :
    (∀ (fs : List Feat) (t : ℤ) (f : Feat), pickClosest fs t = some f → FirstClosest fs t f)
    ∧ pickClosest exFeatures exJan3 = some exItem1 := by
  constructor
  · intro fs t f h
    exact pickClosestGo_none_spec t fs f h
  · decide

/-- C6 witness: the characterisation applied to the example list. -/
theorem pickClosest_spec_witness : FirstClosest exFeatures exJan3 exItem1 :=
  pickClosest_spec.1 exFeatures exJan3 exItem1 (by decide)

/-- `daysBetween(aMs, bMs) = |aMs - bMs| / (24*60*60*1000)`. -/
def daysBetween (a b : ℤ) : ℚ :=
  |(a : ℚ) - (b : ℚ)| / (24 * 60 * 60 * 1000)

/-- A scored candidate of `pickClearest`: the feature together with its
cloud cover and its day distance to the target. -/
structure ClearCand where
  f : Feat
  cloud : ℚ
  dtDays : ℚ
deriving DecidableEq, Repr

/-- The candidate set of `pickClearest`: features having both a
datetime and a cloud cover, scored with `dtDays`. -/
def clearCandidates (fs : List Feat) (t : ℤ) : List ClearCand :=
  fs.filterMap fun f =>
    match f.datetime, f.cloud with
    | some ms, some c => some ⟨f, c, daysBetween ms t⟩
    | _, _ => none

/-- The comparator `(a.cloud - b.cloud) || (a.dtDays - b.dtDays)` as a
non-strict order: cloud cover ascending, then day distance ascending. -/
def clearLe (a b : ClearCand) : Prop :=
  a.cloud < b.cloud ∨ (a.cloud = b.cloud ∧ a.dtDays ≤ b.dtDays)

instance : DecidableRel clearLe := fun a b => by
  unfold clearLe; infer_instance

instance : IsTotal ClearCand clearLe :=
  ⟨fun a b => by
    unfold clearLe
    rcases lt_trichotomy a.cloud b.cloud with h | h | h
    · exact Or.inl (Or.inl h)
    · rcases le_total a.dtDays b.dtDays with h2 | h2
      · exact Or.inl (Or.inr ⟨h, h2⟩)
      · exact Or.inr (Or.inr ⟨h.symm, h2⟩)
    · exact Or.inr (Or.inl h)⟩

instance : IsTrans ClearCand clearLe :=
  ⟨fun a b c hab hbc => by
    unfold clearLe at *
    rcases hab with h1 | ⟨h1, h1d⟩ <;> rcases hbc with h2 | ⟨h2, h2d⟩
    · exact Or.inl (h1.trans h2)
    · exact Or.inl (h2 ▸ h1)
    · exact Or.inl (h1 ▸ h2)
    · exact Or.inr ⟨h1.trans h2, h1d.trans h2d⟩⟩

lemma clearLe_refl (a : ClearCand) : clearLe a a := Or.inr ⟨rfl, le_refl _⟩

/-- The pool `pickClearest` sorts: the candidates within
`maxOffsetDays` of the target, or all candidates when that filtered
subset is empty. -/
def clearPool (fs : List Feat) (t : ℤ) (maxOffsetDays : ℚ) : List ClearCand :=
  let candidates := clearCandidates fs t
  let near := candidates.filter fun c => decide (c.dtDays ≤ maxOffsetDays)
  if near.length > 0 then near else candidates

/-- `pickClearest(features, targetMs, maxOffsetDays)`: sort the pool by
`(cloud ascending, dtDays ascending)` (a stable sort, as required of
`Array.prototype.sort`) and return the first element's feature, or
`null` on an empty pool. -/
def pickClearest (fs : List Feat) (t : ℤ) (maxOffsetDays : ℚ) : Option Feat :=
  ((clearPool fs t maxOffsetDays).insertionSort clearLe).head?.map ClearCand.f

lemma daysBetween_ex1 : daysBetween exJan1 exJan3 = 2 := by
  unfold daysBetween exJan1 exJan3
  rw [abs_sub_comm, abs_of_nonneg (by norm_num)]
  norm_num

lemma daysBetween_ex2 : daysBetween exJan5 exJan3 = 2 := by
  unfold daysBetween exJan5 exJan3
  rw [abs_of_nonneg (by norm_num)]
  norm_num

lemma daysBetween_ex3 : daysBetween exJan10 exJan3 = 7 := by
  unfold daysBetween exJan10 exJan3
  rw [abs_of_nonneg (by norm_num)]
  norm_num

lemma clearCandidates_ex :
    clearCandidates exFeatures exJan3 =
      [⟨exItem1, 80, 2⟩, ⟨exItem2, 5, 2⟩, ⟨exItem3, 50, 7⟩] := by
  simp [clearCandidates, exFeatures, exItem1, exItem2, exItem3,
    daysBetween_ex1, daysBetween_ex2, daysBetween_ex3]

lemma pickClearest_ex_eval : pickClearest exFeatures exJan3 14 = some exItem2 := by
  unfold pickClearest clearPool
  rw [clearCandidates_ex]
  decide

/-- C7: `pickClearest` returns `none` (not an error) when no feature
has both a datetime and a cloud cover; any feature it returns comes
from the pool (near-window candidates, falling back to all scored
candidates) as a candidate minimal under (cloud ascending, day-distance
ascending); and on the example list with `maxOffsetDays = 14` it
returns the 2024-01-05 item, whose cloud cover 5 is the lowest. -/
theorem pickClearest_spec :
    (∀ (fs : List Feat) (t : ℤ) (d : ℚ),
      (∀ f ∈ fs, f.datetime = none ∨ f.cloud = none) → pickClearest fs t d = none)
    ∧ (∀ (fs : List Feat) (t : ℤ) (d : ℚ) (f : Feat),
        pickClearest fs t d = some f →
        ∃ c ∈ clearPool fs t d, c.f = f ∧ ∀ c' ∈ clearPool fs t d, clearLe c c')
    ∧ pickClearest exFeatures exJan3 14 = some exItem2 := by
  refine ⟨?_, ?_, pickClearest_ex_eval⟩
  · intro fs t d hall
    have hcand : clearCandidates fs t = [] := by
      unfold clearCandidates
      rw [List.filterMap_eq_nil_iff]
      intro f hf
      rcases hall f hf with h | h
      · simp [h]
      · cases hdt : f.datetime <;> simp [h, hdt]
    unfold pickClearest clearPool
    rw [hcand]
    simp
  · intro fs t d f h
    unfold pickClearest at h
    obtain ⟨c, hc, hcf⟩ := Option.map_eq_some'.mp h
    have hsort : List.Sorted clearLe ((clearPool fs t d).insertionSort clearLe) :=
      List.sorted_insertionSort clearLe _
    have hperm : List.Perm ((clearPool fs t d).insertionSort clearLe) (clearPool fs t d) :=
      List.perm_insertionSort clearLe _
    cases hs : (clearPool fs t d).insertionSort clearLe with
    | nil => rw [hs] at hc; exact absurd hc (by simp)
    | cons a tail =>
      rw [hs] at hc
      obtain rfl : c = a := by simpa using hc.symm
      rw [hs] at hsort hperm
      refine ⟨c, hperm.subset (List.mem_cons_self c tail), hcf, ?_⟩
      intro c' hc'
      have hc's : c' ∈ c :: tail := (hperm.mem_iff).mpr hc'
      rcases List.mem_cons.mp hc's with rfl | htail
      · exact clearLe_refl c'
      · exact (List.sorted_cons.mp hsort).1 c' htail

/-- C7 witness: the pool characterisation applied to the example
list. -/
theorem pickClearest_spec_witness :
    ∃ c ∈ clearPool exFeatures exJan3 14, c.f = exItem2 ∧
      ∀ c' ∈ clearPool exFeatures exJan3 14, clearLe c c' :=
  pickClearest_spec.2.1 exFeatures exJan3 14 exItem2 pickClearest_ex_eval

/-! ## Wayback timeline route (probe deduplication, sorting, clamping)

A snapshot version carries its numeric id and its `YYYY-MM-DD` date.
The source compares dates as fixed-format strings; lexicographic order
on such strings coincides with numeric order of the digits, so the date
is modelled as the number `YYYYMMDD`.  The probe of a version (fetch
one tile, hash its bytes, `null` on persistent failure) is modelled as
an oracle `hash : WaybackOption → Option ℕ`.  The wall-clock probe
budget (`maxProbeMs`) is not modelled; the probe-count budget
`maxProbes = 180` and the unique-version `limit` are. -/

structure WaybackOption where
  id : ℤ
  date : ℕ
deriving DecidableEq, Repr

/-- The probe/dedup loop: walk versions newest-first, stop when `limit`
unique versions are collected or `maxProbes` probes have been issued;
keep a version whose hash is new, drop it when the hash was already
seen, count it as failed (and keep nothing) when the probe returns
nothing.  The batching of 10 concurrent probes only affects when the
budget checks run between fetches, not which versions are kept, so the
loop is modelled per item. -/
def dedupProbe (hash : WaybackOption → Option ℕ) (limit maxProbes : ℕ) :
    List WaybackOption → List WaybackOption → List ℕ → ℕ → List WaybackOption
  | [], available, _, _ => available
  | v :: rest, available, seen, probed =>
    if limit ≤ available.length then available
    else if maxProbes ≤ probed then available
    else
      match hash v with
      | some h =>
        if h ∈ seen then dedupProbe hash limit maxProbes rest available seen (probed + 1)
        else dedupProbe hash limit maxProbes rest (available ++ [v]) (h :: seen) (probed + 1)
      | none => dedupProbe hash limit maxProbes rest available seen (probed + 1)

/-- Modelled from the spec's dedup policy, for comparison with the
budgeted loop: keep exactly the versions whose probe succeeds with a
hash not seen on any earlier kept version. -/
def keepFirstByHash (hash : WaybackOption → Option ℕ) :
    List WaybackOption → List ℕ → List WaybackOption
  | [], _ => []
  | v :: rest, seen =>
    match hash v with
    | some h =>
      if h ∈ seen then keepFirstByHash hash rest seen
      else v :: keepFirstByHash hash rest (h :: seen)
    | none => keepFirstByHash hash rest seen

/-- The final sort comparator of the route
(`a.date < b.date ? -1 : a.date > b.date ? 1 : a.id - b.id`) as a
non-strict order: date ascending, ties by id ascending. -/
def dateIdLe (a b : WaybackOption) : Prop :=
  a.date < b.date ∨ (a.date = b.date ∧ a.id ≤ b.id)

instance : DecidableRel dateIdLe := fun a b => by
  unfold dateIdLe; infer_instance

instance : IsTotal WaybackOption dateIdLe :=
  ⟨fun a b => by
    unfold dateIdLe
    rcases lt_trichotomy a.date b.date with h | h | h
    · exact Or.inl (Or.inl h)
    · rcases le_total a.id b.id with h2 | h2
      · exact Or.inl (Or.inr ⟨h, h2⟩)
      · exact Or.inr (Or.inr ⟨h.symm, h2⟩)
    · exact Or.inr (Or.inl h)⟩

instance : IsTrans WaybackOption dateIdLe :=
  ⟨fun a b c hab hbc => by
    unfold dateIdLe at *
    rcases hab with h1 | ⟨h1, h1d⟩ <;> rcases hbc with h2 | ⟨h2, h2d⟩
    · exact Or.inl (h1.trans h2)
    · exact Or.inl (h2 ▸ h1)
    · exact Or.inl (h1 ▸ h2)
    · exact Or.inr ⟨h1.trans h2, h1d.trans h2d⟩⟩

structure Timeline where
  options : List WaybackOption
  suggestedBeforeId : ℤ
  suggestedAfterId : ℤ
deriving DecidableEq, Repr

def noCoverageMsg : String :=
  "No Wayback versions seem to have imagery at this location/zoom."

/-- The timeline construction of the route: run the probe/dedup loop
(probe budget 180), fail when nothing usable was found, otherwise sort
oldest-first and suggest the oldest id as before and the newest id as
after.  The source indexes `options[0]` and `options[length-1]`
directly, guaranteed in bounds by the emptiness check; the `getD 0`
fallbacks below are unreachable. -/
def buildTimeline (hash : WaybackOption → Option ℕ) (limit : ℕ)
    (versions : List WaybackOption) : Except String Timeline :=
  let available := dedupProbe hash limit 180 versions [] [] 0
  if available.isEmpty then .error noCoverageMsg
  else
    let options := available.insertionSort dateIdLe
    .ok { options := options,
          suggestedBeforeId := (options.head?.map WaybackOption.id).getD 0,
          suggestedAfterId := (options.getLast?.map WaybackOption.id).getD 0 }

lemma dedupProbe_eq_keepFirst (hash : WaybackOption → Option ℕ) (limit : ℕ) :
    ∀ (l acc : List WaybackOption) (seen : List ℕ) (probed : ℕ),
      acc.length + l.length ≤ limit → probed + l.length ≤ 180 →
      dedupProbe hash limit 180 l acc seen probed = acc ++ keepFirstByHash hash l seen := by
  intro l
  induction l with
  | nil =>
    intro acc seen probed h1 h2
    simp [dedupProbe, keepFirstByHash]
  | cons v rest ih =>
    intro acc seen probed h1 h2
    simp only [List.length_cons] at h1 h2
    have hlim : ¬ limit ≤ acc.length := by omega
    have hpr : ¬ (180 : ℕ) ≤ probed := by omega
    rw [dedupProbe, if_neg hlim, if_neg hpr, keepFirstByHash]
    cases hh : hash v with
    | none =>
      simp only
      exact ih acc seen (probed + 1) (by omega) (by omega)
    | some hsh =>
      simp only
      by_cases hseen : hsh ∈ seen
      · rw [if_pos hseen, if_pos hseen]
        exact ih acc seen (probed + 1) (by omega) (by omega)
      · rw [if_neg hseen, if_neg hseen]
        rw [ih (acc ++ [v]) (hsh :: seen) (probed + 1) (by simp; omega) (by omega)]
        simp

/-- Newest snapshot version of the example: probed first, hash `H1`. -/
def exV3 : WaybackOption := ⟨3, 20240310⟩

/-- Middle version of the example: hash `H1` again, a duplicate. -/
def exV2 : WaybackOption := ⟨2, 20240205⟩

/-- Oldest version of the example: hash `H2`. -/
def exV1 : WaybackOption := ⟨1, 20240101⟩

/-- The probe oracle of the example: `v3 ↦ H1`, `v2 ↦ H1`, `v1 ↦ H2`
(with `H1 = 101`, `H2 = 102`). -/
def exHash (v : WaybackOption) : Option ℕ :=
  if v.id = 3 then some 101 else if v.id = 2 then some 101 else some 102

lemma buildTimeline_ex_eval :
    buildTimeline exHash 60 [exV3, exV2, exV1] = .ok ⟨[exV1, exV3], 1, 3⟩ := by
  decide

/-- C8: under slack budgets (`versions.length ≤ limit` and
`≤ 180` probes) a successfully built timeline keeps exactly the
versions whose probe hash was not already seen (first occurrence per
hash, in probe order), sorted ascending by date with ties broken by id
ascending, and suggests the head's id as `before` and the last id as
`after`; and on the scenario `v3 ↦ H1, v2 ↦ H1, v1 ↦ H2` probed
newest→oldest it keeps `{v3, v1}`, returns `[v1, v3]`, with
`suggestedBeforeId = v1.id` and `suggestedAfterId = v3.id`. -/
theorem buildTimeline_spec :
    (∀ (hash : WaybackOption → Option ℕ) (limit : ℕ) (versions : List WaybackOption)
        (tl : Timeline),
      versions.length ≤ limit → versions.length ≤ 180 →
      buildTimeline hash limit versions = .ok tl →
      tl.options.Sorted dateIdLe
      ∧ List.Perm tl.options (keepFirstByHash hash versions [])
      ∧ (∀ o, tl.options.head? = some o → tl.suggestedBeforeId = o.id)
      ∧ (∀ o, tl.options.getLast? = some o → tl.suggestedAfterId = o.id))
    ∧ buildTimeline exHash 60 [exV3, exV2, exV1] = .ok ⟨[exV1, exV3], 1, 3⟩ := by
  refine ⟨?_, buildTimeline_ex_eval⟩
  intro hash limit versions tl h1 h2 hok
  unfold buildTimeline at hok
  rw [dedupProbe_eq_keepFirst hash limit versions [] [] 0 (by simpa) (by simpa)] at hok
  by_cases hemp : (keepFirstByHash hash versions []).isEmpty
  · rw [List.nil_append, if_pos hemp] at hok
    exact absurd hok (by simp)
  · rw [List.nil_append, if_neg hemp] at hok
    simp only [Except.ok.injEq] at hok
    subst hok
    refine ⟨List.sorted_insertionSort _ _, List.perm_insertionSort _ _, ?_, ?_⟩
    · intro o ho
      simp [ho]
    · intro o ho
      simp [ho]

/-- C8 witness: the characterisation applied to the example probe
run. -/
theorem buildTimeline_spec_witness :
    (Timeline.mk [exV1, exV3] 1 3).options.Sorted dateIdLe
    ∧ List.Perm (Timeline.mk [exV1, exV3] 1 3).options
        (keepFirstByHash exHash [exV3, exV2, exV1] [])
    ∧ (∀ o, (Timeline.mk [exV1, exV3] 1 3).options.head? = some o →
        (Timeline.mk [exV1, exV3] 1 3).suggestedBeforeId = o.id)
    ∧ (∀ o, (Timeline.mk [exV1, exV3] 1 3).options.getLast? = some o →
        (Timeline.mk [exV1, exV3] 1 3).suggestedAfterId = o.id) :=
  buildTimeline_spec.1 exHash 60 [exV3, exV2, exV1] ⟨[exV1, exV3], 1, 3⟩
    (by norm_num) (by norm_num) buildTimeline_ex_eval

/-- JavaScript `Math.round`: round half toward positive infinity. -/
def jsRound (q : ℚ) : ℤ := ⌊q + 1 / 2⌋

/-- The probe zoom of the timeline route:
`Math.min(Math.max(Math.round(body.zoom), 0), 23)` when `body.zoom` is
a finite number, else the default 16.  An absent or non-finite `zoom`
is modelled as `none`. -/
def timelineZoom : Option ℚ → ℤ
  | some q => min (max (jsRound q) 0) 23
  | none => 16

/-- The unique-version limit of the timeline route:
`Math.min(Math.max(Math.round(body.limit), 5), 120)` when finite, else
the default 60. -/
def timelineLimit : Option ℚ → ℤ
  | some q => min (max (jsRound q) 5) 120
  | none => 60

/-- C10: the probe zoom actually used is `round(zoom)` clamped to
`[0, 23]` (default 16 when absent/non-finite) — in particular a probe
is never issued at zoom 24 — and the unique-version limit used is
`round(limit)` clamped to `[5, 120]` (default 60). -/
theorem timeline_zoom_limit_clamped :
    (∀ z : Option ℚ, 0 ≤ timelineZoom z ∧ timelineZoom z ≤ 23 ∧ timelineZoom z ≠ 24)
    ∧ timelineZoom none = 16
    ∧ (∀ q : ℚ, timelineZoom (some q) = min (max (jsRound q) 0) 23)
    ∧ (∀ l : Option ℚ, 5 ≤ timelineLimit l ∧ timelineLimit l ≤ 120)
    ∧ timelineLimit none = 60
    ∧ (∀ q : ℚ, timelineLimit (some q) = min (max (jsRound q) 5) 120) := by
  refine ⟨?_, rfl, fun q => rfl, ?_, rfl, fun q => rfl⟩
  · intro z
    cases z with
    | none => refine ⟨by norm_num [timelineZoom], by norm_num [timelineZoom], by decide⟩
    | some q =>
      simp only [timelineZoom]
      refine ⟨?_, ?_, ?_⟩ <;> omega
  · intro l
    cases l with
    | none => exact ⟨by norm_num [timelineLimit], by norm_num [timelineLimit]⟩
    | some q =>
      simp only [timelineLimit]
      constructor <;> omega

/-! ## Coordinate projector and tile mosaic loader
(`clampLat` / `lonLatToWorldPx` / `loadBboxImageFromTiles`)

The Web-Mercator projection uses `tan`, `cos`, `log` and `π`, so this
part of the embedding lives in `ℝ`. -/

/-- Clamp a latitude to the Web-Mercator band `[-85.05112878, 85.05112878]`. -/
def clampLat (lat : ℝ) : ℝ :=
  max (-85.05112878) (min 85.05112878 lat)

/-- `lonLatToWorldPx(lon, lat, z)`: world-pixel coordinates at zoom `z`
(`n = 2^z` tiles of 256px per axis); `y` is the spherical Mercator
formula `((1 - log(tan φ + 1/cos φ)/π)/2) * n * 256` on the clamped
latitude. -/
noncomputable def lonLatToWorldPx (lon lat : ℝ) (z : ℕ) : ℝ × ℝ :=
  ((lon + 180) / 360 * ((2 : ℝ) ^ z * 256),
    (1 - Real.log (Real.tan (clampLat lat * Real.pi / 180) +
        1 / Real.cos (clampLat lat * Real.pi / 180)) / Real.pi) / 2 * ((2 : ℝ) ^ z * 256))

structure BBoxR where
  minLng : ℝ
  minLat : ℝ
  maxLng : ℝ
  maxLat : ℝ

structure TileRange where
  x0 : ℤ
  y0 : ℤ
  x1 : ℤ
  y1 : ℤ
  tilesX : ℤ
  tilesY : ℤ

/-- The `calc` closure of `loadBboxImageFromTiles`: project the top-left
corner `(minLng, maxLat)` and the bottom-right corner `(maxLng, minLat)`,
floor-divide by the tile size 256 and count the inclusive tile range. -/
noncomputable def calcRange (b : BBoxR) (z : ℕ) : TileRange :=
  let pMin := lonLatToWorldPx b.minLng b.maxLat z
  let pMax := lonLatToWorldPx b.maxLng b.minLat z
  let x0 := ⌊pMin.1 / 256⌋
  let y0 := ⌊pMin.2 / 256⌋
  let x1 := ⌊pMax.1 / 256⌋
  let y1 := ⌊pMax.2 / 256⌋
  ⟨x0, y0, x1, y1, x1 - x0 + 1, y1 - y0 + 1⟩

lemma clampLat_mono {a b : ℝ} (h : a ≤ b) : clampLat a ≤ clampLat b := by
  unfold clampLat
  exact max_le_max (le_refl _) (min_le_min (le_refl _) h)

lemma clampLat_mem (lat : ℝ) :
    -85.05112878 ≤ clampLat lat ∧ clampLat lat ≤ 85.05112878 := by
  unfold clampLat
  constructor
  · exact le_max_left _ _
  · exact max_le (by norm_num) (min_le_left _ _)


lemma clampRad_mem (lat : ℝ) :
    clampLat lat * Real.pi / 180 ∈ Set.Ioo (-(Real.pi / 2)) (Real.pi / 2) := by
  obtain ⟨h1, h2⟩ := clampLat_mem lat
  have hpi := Real.pi_pos
  constructor
  · nlinarith [mul_pos (show (0:ℝ) < clampLat lat + 90 by linarith) hpi]
  · nlinarith [mul_pos (show (0:ℝ) < 90 - clampLat lat by linarith) hpi]

lemma log_tan_add_sec_eq_arsinh {θ : ℝ} (h : θ ∈ Set.Ioo (-(Real.pi / 2)) (Real.pi / 2)) :
    Real.log (Real.tan θ + 1 / Real.cos θ) = Real.arsinh (Real.tan θ) := by
  have hc : 0 < Real.cos θ := Real.cos_pos_of_mem_Ioo h
  have hsq : Real.sqrt (1 + Real.tan θ ^ 2) = 1 / Real.cos θ := by
    have h2 := Real.inv_sqrt_one_add_tan_sq hc
    rw [one_div, ← h2, inv_inv]
  unfold Real.arsinh
  rw [hsq]

/-- The Mercator log term `log(tan φ + 1/cos φ)` on the clamped latitude
is monotone in the latitude: on the clamped band it equals
`arsinh (tan φ)`, and both `tan` (on `(-π/2, π/2)`) and `arsinh` are
monotone. -/
lemma mercLog_mono {a b : ℝ} (h : a ≤ b) :
    Real.log (Real.tan (clampLat a * Real.pi / 180) +
        1 / Real.cos (clampLat a * Real.pi / 180)) ≤
      Real.log (Real.tan (clampLat b * Real.pi / 180) +
        1 / Real.cos (clampLat b * Real.pi / 180)) := by
  have ha := clampRad_mem a
  have hb := clampRad_mem b
  rw [log_tan_add_sec_eq_arsinh ha, log_tan_add_sec_eq_arsinh hb, Real.arsinh_le_arsinh]
  apply Real.strictMonoOn_tan.monotoneOn ha hb
  have hmul := mul_le_mul_of_nonneg_right (clampLat_mono h) Real.pi_pos.le
  linarith

/-- Projected `y` is antitone in latitude (a larger latitude maps to a
smaller world-pixel row); the `x`-coordinate of the pair plays no role
here. -/
lemma worldPxY_le {la lb : ℝ} (h : la ≤ lb) (lon1 lon2 : ℝ) (z : ℕ) :
    (lonLatToWorldPx lon1 lb z).2 ≤ (lonLatToWorldPx lon2 la z).2 := by
  unfold lonLatToWorldPx
  simp only
  have hlog := mercLog_mono h
  gcongr

/-- C9: for every zoom in `[0, 24]` and every valid bounding box
(`minLon < maxLon`, `minLat < maxLat`), the tile range derived from
projecting the top-left and bottom-right corners is non-empty:
`tilesX ≥ 1` and `tilesY ≥ 1`. -/
theorem bboxTileRange_pos (b : BBoxR) (z : ℕ) (_hz : z ≤ 24)
    (hlon : b.minLng < b.maxLng) (hlat : b.minLat < b.maxLat) :
    1 ≤ (calcRange b z).tilesX ∧ 1 ≤ (calcRange b z).tilesY := by
  unfold calcRange
  simp only
  constructor
  · have hx : (lonLatToWorldPx b.minLng b.maxLat z).1 / 256 ≤
        (lonLatToWorldPx b.maxLng b.minLat z).1 / 256 := by
      unfold lonLatToWorldPx
      simp only
      have hlon' : b.minLng + 180 ≤ b.maxLng + 180 := by linarith
      gcongr
    have := Int.floor_le_floor hx
    omega
  · have hy : (lonLatToWorldPx b.minLng b.maxLat z).2 / 256 ≤
        (lonLatToWorldPx b.maxLng b.minLat z).2 / 256 := by
      have := worldPxY_le hlat.le b.minLng b.maxLng z
      gcongr
    have := Int.floor_le_floor hy
    omega

/-- C9 witness: a concrete valid bbox and zoom. -/
theorem bboxTileRange_pos_witness :
    ((16 : ℕ) ≤ 24 ∧ (0 : ℝ) < 10 ∧ (-10 : ℝ) < 20)
    ∧ 1 ≤ (calcRange ⟨0, -10, 10, 20⟩ 16).tilesX
    ∧ 1 ≤ (calcRange ⟨0, -10, 10, 20⟩ 16).tilesY :=
  ⟨⟨by norm_num, by norm_num, by norm_num⟩,
    bboxTileRange_pos ⟨0, -10, 10, 20⟩ 16 (by norm_num) (by norm_num) (by norm_num)⟩

/-- The zoom-reduction loop of `loadBboxImageFromTiles`
(`maxTiles = 36`): `while (z > 0 && tilesX*tilesY > 36) z -= 1`,
expressed as structural recursion on `z`; returns the zoom at which the
loop stops. -/
noncomputable def budgetZoom (b : BBoxR) : ℕ → ℕ
  | 0 => 0
  | z + 1 =>
    if 36 < (calcRange b (z + 1)).tilesX * (calcRange b (z + 1)).tilesY then budgetZoom b z
    else z + 1

/-- C4 (amended): after the zoom-reduction loop, either the loop ran
out of zoom (`z = 0`, where the tile range can no longer shrink) or the
tile range satisfies `tilesX * tilesY ≤ 36`. -/
theorem budgetZoom_post (b : BBoxR) (z : ℕ) :
    budgetZoom b z = 0 ∨
      (calcRange b (budgetZoom b z)).tilesX * (calcRange b (budgetZoom b z)).tilesY ≤ 36 := by
  induction z with
  | zero => exact Or.inl rfl
  | succ z ih =>
    by_cases h : 36 < (calcRange b (z + 1)).tilesX * (calcRange b (z + 1)).tilesY
    · simp only [budgetZoom, if_pos h]
      exact ih
    · simp only [budgetZoom, if_neg h]
      exact Or.inr (not_lt.mp h)

/-- A bounding box whose longitudes lie far outside `[-180, 180]`; the
projection does not clamp longitude, so at zoom 0 it still spans 202
tile columns. -/
def wideBbox : BBoxR := ⟨-36180, 0, 36180, 0⟩

/-- C4 (counterexample): with requested zoom 0 and the wide bbox, the
zoom-reduction loop exits immediately at `z = 0` and the attempt's tile
range has `tilesX * tilesY = 202 > 36`, so a single attempt would issue
202 tile fetches.  This refutes the claim that the budget bound holds
for every input bbox. -/
theorem budgetZoom_cex :
    36 < (calcRange wideBbox (budgetZoom wideBbox 0)).tilesX *
      (calcRange wideBbox (budgetZoom wideBbox 0)).tilesY := by
  have hb : budgetZoom wideBbox 0 = 0 := rfl
  rw [hb]
  have hclamp : clampLat (0 : ℝ) = 0 := by
    unfold clampLat
    norm_num
  unfold calcRange lonLatToWorldPx wideBbox
  simp only [hclamp]
  norm_num [Real.tan_zero, Real.cos_zero, Real.log_one]

/-- `z = Math.max(0, Math.min(24, Math.round(requestedZoom)))` at the
top of `loadBboxImageFromTiles`. -/
def clampZoom24 (rz : ℚ) : ℕ := (max 0 (min 24 (jsRound rz))).toNat

/-- The attempt loop of `loadBboxImageFromTiles`, `fuel` attempts
remaining.  `fail k z` abstracts whether the attempt body with `k`
attempts remaining after it, fetching at zoom `z`, throws (tile fetch
failure, timeout, missing-tile coverage error, unavailable canvas);
the loop itself: run the tile-budget loop, attempt, and on a throw
retry at `z - 1` when `z > 0`, else stop.  Returns the zooms attempted
in order and whether the run succeeded; on `false` the source throws
the last error to its caller. -/
noncomputable def loadMosaicGo (fail : ℕ → ℕ → Bool) (b : BBoxR) : ℕ → ℕ → List ℕ × Bool
  | 0, _ => ([], false)
  | fuel + 1, z =>
    let za := budgetZoom b z
    if fail fuel za then
      if 0 < za then
        let r := loadMosaicGo fail b fuel (za - 1)
        (za :: r.1, r.2)
      else ([za], false)
    else ([za], true)

/-- `loadBboxImageFromTiles` runs the attempt loop with 6 attempts from
the clamped requested zoom. -/
noncomputable def loadMosaicSim (fail : ℕ → ℕ → Bool) (b : BBoxR) (requestedZoom : ℚ) :
    List ℕ × Bool :=
  loadMosaicGo fail b 6 (clampZoom24 requestedZoom)

/-- A degenerate single-point bounding box: its tile range is a single
tile at every zoom, so the budget loop never lowers the zoom. -/
def pointBbox : BBoxR := ⟨0, 0, 0, 0⟩

lemma calcRange_point (z : ℕ) :
    (calcRange pointBbox z).tilesX = 1 ∧ (calcRange pointBbox z).tilesY = 1 := by
  constructor <;> (unfold calcRange lonLatToWorldPx pointBbox; simp)

lemma budgetZoom_point (z : ℕ) : budgetZoom pointBbox z = z := by
  cases z with
  | zero => rfl
  | succ n =>
    have h := calcRange_point (n + 1)
    simp only [budgetZoom, h.1, h.2]
    norm_num

/-- C5 (counterexample): when every attempt throws (e.g. the tile
server is unreachable), starting from requested zoom 24 over a
single-tile bbox the loader consumes its 6 attempts at zooms
24,…,19 and surfaces the error without ever attempting zoom 0.  This
refutes the claim that an error reaches the caller only after an
attempt at zoom 0 has failed, and the claim that every failed attempt
at `z > 0` is retried. -/
theorem loadMosaic_cex :
    loadMosaicSim (fun _ _ => true) pointBbox 24 = ([24, 23, 22, 21, 20, 19], false)
    ∧ 0 ∉ (loadMosaicSim (fun _ _ => true) pointBbox 24).1 := by
  have hcz : clampZoom24 24 = 24 := by
    unfold clampZoom24 jsRound
    norm_num
    decide
  have heq : loadMosaicSim (fun _ _ => true) pointBbox 24 = ([24, 23, 22, 21, 20, 19], false) := by
    unfold loadMosaicSim
    rw [hcz]
    simp [loadMosaicGo, budgetZoom_point]
  refine ⟨heq, ?_⟩
  rw [heq]
  simp

lemma loadMosaicGo_failure (fail : ℕ → ℕ → Bool) (b : BBoxR) :
    ∀ (fuel z : ℕ), (loadMosaicGo fail b fuel z).2 = false →
      0 ∈ (loadMosaicGo fail b fuel z).1 ∨ (loadMosaicGo fail b fuel z).1.length = fuel := by
  intro fuel
  induction fuel with
  | zero => intro z h; exact Or.inr rfl
  | succ fuel ih =>
    intro z h
    by_cases hf : fail fuel (budgetZoom b z)
    · by_cases hz : 0 < budgetZoom b z
      · simp only [loadMosaicGo, hf, if_true, hz] at h ⊢
        rcases ih _ h with h0 | hlen
        · exact Or.inl (List.mem_cons_of_mem _ h0)
        · exact Or.inr (by simp [hlen])
      · have hz0 : budgetZoom b z = 0 := by omega
        simp only [loadMosaicGo, hf, if_true, hz, if_false] at h ⊢
        exact Or.inl (by simp [hz0])
    · simp only [loadMosaicGo, hf, if_false] at h
      simp at h

/-- C5 (amended): when the mosaic loader surfaces an error to its
caller, either one of the attempts was made (and failed) at zoom 0, or
all 6 attempts were consumed; every failed attempt at `z > 0` with
attempts remaining is retried at the decremented zoom. -/
theorem loadMosaic_failure_policy (fail : ℕ → ℕ → Bool) (b : BBoxR) (rz : ℚ)
    (h : (loadMosaicSim fail b rz).2 = false) :
    0 ∈ (loadMosaicSim fail b rz).1 ∨ (loadMosaicSim fail b rz).1.length = 6 :=
  loadMosaicGo_failure fail b 6 (clampZoom24 rz) h

/-- C5 witness: a failing run from requested zoom 0. -/
theorem loadMosaic_failure_policy_witness :
    (loadMosaicSim (fun _ _ => true) pointBbox 0).2 = false
    ∧ (0 ∈ (loadMosaicSim (fun _ _ => true) pointBbox 0).1
        ∨ (loadMosaicSim (fun _ _ => true) pointBbox 0).1.length = 6) := by
  have h2 : (loadMosaicSim (fun _ _ => true) pointBbox 0).2 = false := by
    have hcz : clampZoom24 0 = 0 := by
      unfold clampZoom24 jsRound
      norm_num
    unfold loadMosaicSim
    rw [hcz]
    simp [loadMosaicGo, budgetZoom_point]
  exact ⟨h2, loadMosaic_failure_policy _ _ _ h2⟩
